import Mathlib

/-!
Verification development for the DUNE school systematics macros
(Systematics3.C, Systematics3Solution.C, Systematics1Solution.C).

The macros build CAFAna Spectrum objects over one SpectrumLoader pass,
perturb reconstructed event fields with ISyst subclasses (EMuScale,
EMuSmear, ThetaSmear), and compare the shifted histograms to the central
value with MakeFractionalPlot.  Doubles are embedded as rationals (an FP
wrapper adds the IEEE NaN value where the claims need it); the CAFAna
engine parts that are not in this repository's sources (Restorer/undo,
SpectrumLoader::Go, Binning::Simple, per-bin TH1 arithmetic) are modelled
from the specification, as flagged in the corresponding doc comments.
-/

namespace DUNESys

/-- Floating-point value for the parts of the development that must speak
about NaN: either an ordinary (rational-embedded) number or NaN. -/
inductive FP where
  | num (q : ℚ)
  | nan
deriving DecidableEq, Repr

/-- Proton mass in GeV (source constant M_P = .938). -/
def M_P : ℚ := 938 / 1000

/-- Neutron mass in GeV (source constant M_N = .939). -/
def M_N : ℚ := 939 / 1000

/-- Muon mass in GeV (source constant M_MU = .106). -/
def M_MU : ℚ := 106 / 1000

/-- Binding energy for nucleons in argon-40 in GeV (source constant E_B = .028). -/
def E_B : ℚ := 28 / 1000

/-- The fields of the caf::SRProxy standard record that the macros read or
mutate: Elep_reco and theta_reco (mutated by the systematic shifts) and the
integer final-state fields read by the CC0pi cut. -/
structure SRProxy where
  Elep_reco : ℚ
  theta_reco : ℚ
  LepPDG : ℤ
  nP : ℤ
  nipip : ℤ
  nipim : ℤ
  nipi0 : ℤ
deriving DecidableEq, Repr

/-- Var kRecoMuonEnergy from Systematics3.C: returns sr->Elep_reco. -/
def kRecoMuonEnergy (sr : SRProxy) : ℚ := sr.Elep_reco

/-- Cut kHasCC0PiFinalState from both macros:
abs(sr->LepPDG) == 13 && sr->nP >= 1 && (nipip + nipim + nipi0) == 0. -/
def kHasCC0PiFinalState (sr : SRProxy) : Bool :=
  decide (sr.LepPDG.natAbs = 13) && decide (1 ≤ sr.nP) &&
    decide (sr.nipip + sr.nipim + sr.nipi0 = 0)

/-- The mutable record fields touched by the systematic shifts. -/
inductive SRField where
  | elepReco
  | thetaReco
deriving DecidableEq, Repr

/-- Read one of the mutable fields. -/
def getField (sr : SRProxy) : SRField → ℚ
  | .elepReco => sr.Elep_reco
  | .thetaReco => sr.theta_reco

/-- Write one of the mutable fields. -/
def setField (sr : SRProxy) : SRField → ℚ → SRProxy
  | .elepReco, v => { sr with Elep_reco := v }
  | .thetaReco, v => { sr with theta_reco := v }

/-- Modelled from the spec: CAFAna's Restorer (not under src/).  The token
lists the touched fields with their pre-mutation values, most recent first;
restore.Add(field) pushes the current value before the transform mutates. -/
abbrev Restorer := List (SRField × ℚ)

/-- Modelled from the spec: restore.Add records the pre-mutation value of a
field ahead of the mutation. -/
def restorerAdd (rest : Restorer) (sr : SRProxy) (f : SRField) : Restorer :=
  (f, getField sr f) :: rest

/-- Modelled from the spec: undo writes every captured value back, most
recently captured first (strict reverse order of application). -/
def undoRestorer (rest : Restorer) (sr : SRProxy) : SRProxy :=
  rest.foldl (fun r p => setField r p.1 p.2) sr

/-- The ISyst subclasses defined in the macros. -/
inductive Syst where
  | eMuScale
  | eMuSmear
  | thetaSmear
deriving DecidableEq, Repr

/-- One Shift call of an ISyst from the source.  The shared random
generator (gRandom) is modelled as the seeded sequence stream of the values
its successive Gaus calls return together with the cursor pos; a stochastic
shift consumes the value at the cursor and advances it, a deterministic
shift leaves the cursor alone.
eMuScale: restore.Add(sr->Elep_reco); sr->Elep_reco *= (1 + 0.2 * sigma).
eMuSmear: restore.Add(sr->Elep_reco); sr->Elep_reco *= 1 + sigma * Gaus.
thetaSmear: restore.Add(sr->theta_reco); sr->theta_reco += sigma * Gaus.
None of the three Shift bodies writes the weight reference, so the event
weight stays at its base value and is not threaded here. -/
def applySyst (s : Syst) (sigma : ℚ) (stream : ℕ → ℚ) (sr : SRProxy)
    (rest : Restorer) (pos : ℕ) : SRProxy × Restorer × ℕ :=
  match s with
  | .eMuScale =>
      ({ sr with Elep_reco := sr.Elep_reco * (1 + (1 / 5) * sigma) },
        restorerAdd rest sr .elepReco, pos)
  | .eMuSmear =>
      ({ sr with Elep_reco := sr.Elep_reco * (1 + sigma * stream pos) },
        restorerAdd rest sr .elepReco, pos + 1)
  | .thetaSmear =>
      ({ sr with theta_reco := sr.theta_reco + sigma * stream pos },
        restorerAdd rest sr .thetaReco, pos + 1)

/-- A SystShifts hypothesis: the ordered (ISyst, sigma) pairs; [] is the
central value. -/
abbrev ShiftSet := List (Syst × ℚ)

/-- Modelled from the spec: a ShiftSet applies its member transforms in
sequence order, sharing one Restorer and the one global random cursor. -/
def applyShiftSet (ss : ShiftSet) (stream : ℕ → ℚ) (sr : SRProxy)
    (rest : Restorer) (pos : ℕ) : SRProxy × Restorer × ℕ :=
  match ss with
  | [] => (sr, rest, pos)
  | (s, sigma) :: tl =>
      let a := applySyst s sigma stream sr rest pos
      applyShiftSet tl stream a.1 a.2.1 a.2.2

lemma setField_getField (sr : SRProxy) (f : SRField) (v : ℚ) :
    setField (setField sr f v) f (getField sr f) = sr := by
  cases sr
  cases f <;> rfl

lemma undo_push (rest : Restorer) (sr : SRProxy) (f : SRField) (v : ℚ) :
    undoRestorer ((f, getField sr f) :: rest) (setField sr f v)
      = undoRestorer rest sr := by
  simp only [undoRestorer, List.foldl_cons]
  rw [setField_getField]

lemma applySyst_undo (s : Syst) (sigma : ℚ) (stream : ℕ → ℚ) (sr : SRProxy)
    (rest : Restorer) (pos : ℕ) :
    undoRestorer (applySyst s sigma stream sr rest pos).2.1
        (applySyst s sigma stream sr rest pos).1
      = undoRestorer rest sr := by
  cases s <;> exact undo_push rest sr _ _

lemma applyShiftSet_undo_general (ss : ShiftSet) :
    ∀ (stream : ℕ → ℚ) (sr : SRProxy) (rest : Restorer) (pos : ℕ),
      undoRestorer (applyShiftSet ss stream sr rest pos).2.1
          (applyShiftSet ss stream sr rest pos).1
        = undoRestorer rest sr := by
  induction ss with
  | nil => intro stream sr rest pos; rfl
  | cons hd tl ih =>
      intro stream sr rest pos
      obtain ⟨s, sigma⟩ := hd
      simp only [applyShiftSet]
      rw [ih]
      exact applySyst_undo s sigma stream sr rest pos

/-- Claim C1: for every event record, every ShiftSet (stochastic transforms
included, whatever the random stream supplies), applying the ShiftSet's
transforms and then undoing through the Restorer restores the record
exactly: each Shift pushes the pre-mutation value of the field it touches
before mutating, so apply-then-undo is the identity on the record. -/
theorem shiftSet_apply_undo_roundtrip (ss : ShiftSet) (stream : ℕ → ℚ)
    (sr : SRProxy) (pos : ℕ) :
    undoRestorer (applyShiftSet ss stream sr [] pos).2.1
        (applyShiftSet ss stream sr [] pos).1
      = sr :=
  applyShiftSet_undo_general ss stream sr [] pos

lemma applySyst_frame (s : Syst) (sigma : ℚ) (stream : ℕ → ℚ) (sr : SRProxy)
    (rest : Restorer) (pos : ℕ) :
    (applySyst s sigma stream sr rest pos).1.LepPDG = sr.LepPDG
    ∧ (applySyst s sigma stream sr rest pos).1.nP = sr.nP
    ∧ (applySyst s sigma stream sr rest pos).1.nipip = sr.nipip
    ∧ (applySyst s sigma stream sr rest pos).1.nipim = sr.nipim
    ∧ (applySyst s sigma stream sr rest pos).1.nipi0 = sr.nipi0 := by
  cases s <;> exact ⟨rfl, rfl, rfl, rfl, rfl⟩

lemma applyShiftSet_frame (ss : ShiftSet) :
    ∀ (stream : ℕ → ℚ) (sr : SRProxy) (rest : Restorer) (pos : ℕ),
      (applyShiftSet ss stream sr rest pos).1.LepPDG = sr.LepPDG
      ∧ (applyShiftSet ss stream sr rest pos).1.nP = sr.nP
      ∧ (applyShiftSet ss stream sr rest pos).1.nipip = sr.nipip
      ∧ (applyShiftSet ss stream sr rest pos).1.nipim = sr.nipim
      ∧ (applyShiftSet ss stream sr rest pos).1.nipi0 = sr.nipi0 := by
  induction ss with
  | nil => intro stream sr rest pos; exact ⟨rfl, rfl, rfl, rfl, rfl⟩
  | cons hd tl ih =>
      intro stream sr rest pos
      obtain ⟨s, sigma⟩ := hd
      simp only [applyShiftSet]
      obtain ⟨h1, h2, h3, h4, h5⟩ :=
        ih stream (applySyst s sigma stream sr rest pos).1
          (applySyst s sigma stream sr rest pos).2.1
          (applySyst s sigma stream sr rest pos).2.2
      obtain ⟨g1, g2, g3, g4, g5⟩ := applySyst_frame s sigma stream sr rest pos
      exact ⟨h1.trans g1, h2.trans g2, h3.trans g3, h4.trans g4, h5.trans g5⟩

/-- Claim C9: every systematic transform of the macros mutates only
Elep_reco (EMuScale, EMuSmear) or theta_reco (ThetaSmear); the fields read
by the CC0pi selection (LepPDG, nP, nipip, nipim, nipi0) are unchanged by
every ShiftSet, so kHasCC0PiFinalState evaluates to the same boolean on the
shifted record as on the original under every hypothesis. -/
theorem shifts_frame_cc0pi_invariant (ss : ShiftSet) (stream : ℕ → ℚ)
    (sr : SRProxy) (pos : ℕ) :
    (applyShiftSet ss stream sr [] pos).1.LepPDG = sr.LepPDG
    ∧ (applyShiftSet ss stream sr [] pos).1.nP = sr.nP
    ∧ (applyShiftSet ss stream sr [] pos).1.nipip = sr.nipip
    ∧ (applyShiftSet ss stream sr [] pos).1.nipim = sr.nipim
    ∧ (applyShiftSet ss stream sr [] pos).1.nipi0 = sr.nipi0
    ∧ kHasCC0PiFinalState (applyShiftSet ss stream sr [] pos).1
        = kHasCC0PiFinalState sr := by
  obtain ⟨h1, h2, h3, h4, h5⟩ := applyShiftSet_frame ss stream sr [] pos
  refine ⟨h1, h2, h3, h4, h5, ?_⟩
  simp only [kHasCC0PiFinalState, h1, h2, h3, h4, h5]

/-- Modelled from the spec: the BinningScheme contract binIndexOf over the
ordered edge list; a value in [edge i, edge (i+1)) lands in bin i, values
below the first edge or at/above the last are Underflow/Overflow and get no
finite bin (dropped from finite sums). -/
def binIndexOf : List ℚ → ℚ → Option ℕ
  | a :: b :: tl, x =>
      if a ≤ x ∧ x < b then some 0
      else (binIndexOf (b :: tl) x).map (· + 1)
  | _, _ => none

/-- Modelled from the spec: Binning::Simple (CAFAna, not under src/) —
the uniform convenience constructor takes (count, lowEdge, highEdge) and
produces count equal-width bins, rejecting count ≤ 0 or lowEdge ≥ highEdge
with a configuration error (modelled as none). -/
def binningSimple (n : ℤ) (lo hi : ℚ) : Option (List ℚ) :=
  if n ≤ 0 ∨ hi ≤ lo then none
  else
    some ((List.range (n.toNat + 1)).map
      (fun i : ℕ => lo + (i : ℚ) * ((hi - lo) / n)))

/-- Claim C7: binningSimple (count, lowEdge, highEdge) yields exactly count
bins, i.e. count+1 edges, every bin of width (highEdge-lowEdge)/count; and
every input with count ≤ 0 or lowEdge ≥ highEdge is rejected at
construction time instead of producing a binning. -/
theorem binningSimple_contract (n : ℤ) (lo hi : ℚ) :
    ((n ≤ 0 ∨ hi ≤ lo) → binningSimple n lo hi = none)
    ∧ (0 < n → lo < hi →
        ∃ edges, binningSimple n lo hi = some edges
          ∧ edges.length = n.toNat + 1
          ∧ ∀ i : ℕ, i < n.toNat → ∃ a b : ℚ,
              edges[i]? = some a ∧ edges[i + 1]? = some b
                ∧ b - a = (hi - lo) / n) := by
  constructor
  · intro h
    simp only [binningSimple, if_pos h]
  · intro hn hlt
    have hcond : ¬ (n ≤ 0 ∨ hi ≤ lo) := by
      push_neg
      exact ⟨hn, hlt⟩
    refine ⟨(List.range (n.toNat + 1)).map
        (fun i : ℕ => lo + (i : ℚ) * ((hi - lo) / n)), ?_, ?_, ?_⟩
    · simp only [binningSimple, if_neg hcond]
    · simp
    · intro i hi2
      refine ⟨lo + (i : ℚ) * ((hi - lo) / n),
          lo + ((i : ℚ) + 1) * ((hi - lo) / n), ?_, ?_, ?_⟩
      · rw [List.getElem?_map, List.getElem?_range (by omega)]
        rfl
      · rw [List.getElem?_map, List.getElem?_range (by omega)]
        simp only [Option.map_some']
        congr 1
        push_cast
        ring
      · ring

/-- Witness for claim C7: the rejection branch at count = -1 and the
accepted branch at Binning::Simple(2, 0, 10). -/
theorem binningSimple_contract_witness :
    binningSimple (-1) 0 10 = none
    ∧ ∃ edges, binningSimple 2 0 10 = some edges
        ∧ edges.length = (2 : ℤ).toNat + 1
        ∧ ∀ i : ℕ, i < (2 : ℤ).toNat → ∃ a b : ℚ,
            edges[i]? = some a ∧ edges[i + 1]? = some b
              ∧ b - a = ((10 : ℚ) - 0) / (2 : ℤ) :=
  ⟨(binningSimple_contract (-1) 0 10).1 (Or.inl (by decide)),
    (binningSimple_contract 2 0 10).2 (by decide) (by norm_num)⟩

/-- Mutable accumulator of one Spectrum: per-bin weighted sums (content),
per-bin sums of squared weights (sumw2) and the count of selected events
whose value fell outside the finite bins (dropped). -/
structure SpecState where
  content : List ℚ
  sumw2 : List ℚ
  dropped : ℕ
deriving DecidableEq, Repr

/-- A registered Spectrum: binning edges, derived variable, selection
predicate and SystShifts hypothesis, as constructed in the macros. -/
structure SpectrumCfg where
  edges : List ℚ
  var : SRProxy → ℚ
  cut : SRProxy → Bool
  shift : ShiftSet

/-- Fresh zeroed accumulator with one cell per finite bin. -/
def initState (cfg : SpectrumCfg) : SpecState :=
  ⟨List.replicate (cfg.edges.length - 1) 0,
    List.replicate (cfg.edges.length - 1) 0, 0⟩

/-- Modelled from the spec: Spectrum observe — evaluate the predicate on
the (possibly shifted) record, on success evaluate the variable, bin it,
and accumulate the event weight (base weight 1, none of the macros' shifts
reweights); Underflow/Overflow is dropped from finite bins and tallied. -/
def observeCfg (cfg : SpectrumCfg) (st : SpecState) (sr : SRProxy) :
    SpecState :=
  if cfg.cut sr then
    match binIndexOf cfg.edges (cfg.var sr) with
    | some b =>
        { content := st.content.set b (st.content.getD b 0 + 1),
          sumw2 := st.sumw2.set b (st.sumw2.getD b 0 + 1),
          dropped := st.dropped }
    | none => { st with dropped := st.dropped + 1 }
  else st

/-- Modelled from the spec: one event of the Loader pass — for each
registered hypothesis in turn, apply its ShiftSet to the record (drawing
from the shared random stream at the current cursor), observe the spectrum
registered under it, undo the ShiftSet through the Restorer, and hand the
restored record to the next hypothesis. -/
def eventPass (stream : ℕ → ℚ) :
    List SpectrumCfg → List SpecState → SRProxy → ℕ →
      List SpecState × SRProxy × ℕ
  | [], sts, sr, pos => (sts, sr, pos)
  | _ :: _, [], sr, pos => ([], sr, pos)
  | cfg :: cfgs, st :: sts, sr, pos =>
      let a := applyShiftSet cfg.shift stream sr [] pos
      let tail := eventPass stream cfgs sts (undoRestorer a.2.1 a.1) a.2.2
      (observeCfg cfg st a.1 :: tail.1, tail.2)

/-- Modelled from the spec: SpectrumLoader::Go — one forward pass over the
event stream, each event fully processed under every registered hypothesis
before the next event is fetched; accumulators start zeroed and the shared
random cursor starts at the seed position 0. -/
def runLoader (cfgs : List SpectrumCfg) (events : List SRProxy)
    (stream : ℕ → ℚ) : List SpecState × ℕ :=
  events.foldl
    (fun acc ev =>
      let p := eventPass stream cfgs acc.1 ev acc.2
      (p.1, p.2.2))
    (cfgs.map initState, 0)

/-- Always-true selection predicate (the trivial cut of claim C3). -/
def cutTrue : SRProxy → Bool := fun _ => true

/-- First event of the C3 scenario: derived value 0.5. -/
def evC3a : SRProxy := ⟨1 / 2, 0, 13, 1, 0, 0, 0⟩

/-- Second event of the C3 scenario: derived value 9.5. -/
def evC3b : SRProxy := ⟨19 / 2, 0, 13, 1, 0, 0, 0⟩

/-- Third event of the C3 scenario: derived value 5.0. -/
def evC3c : SRProxy := ⟨5, 0, 13, 1, 0, 0, 0⟩

/-- Central-value Spectrum of the C3 scenario: 2 uniform bins on [0,10],
muon-energy variable, always-true cut, empty ShiftSet. -/
def cfgCentralC3 : SpectrumCfg := ⟨[0, 5, 10], kRecoMuonEnergy, cutTrue, []⟩

/-- Scale-up Spectrum of the C3 scenario: same axis, EMuScale at sigma = +1
(multiplies the muon energy by 1 + 0.2). -/
def cfgScaleUpC3 : SpectrumCfg :=
  ⟨[0, 5, 10], kRecoMuonEnergy, cutTrue, [(Syst.eMuScale, 1)]⟩

/-- One Loader pass over the three C3 events with both hypotheses. -/
def runC3 : List SpecState × ℕ :=
  runLoader [cfgCentralC3, cfgScaleUpC3] [evC3a, evC3b, evC3c] (fun _ => 0)

/-- Counterexample for claim C3: the central-value Spectrum over values
{0.5, 9.5, 5.0} with bins [0,5) and [5,10) accumulates content [1, 2]
(9.5 and 5.0 both land in bin 1), not the claimed [2.0, 1.0]. -/
theorem concrete_scenario_central_not_two_one :
    (runC3.1[0]?).map SpecState.content ≠ some [2, 1] := by
  norm_num [runC3, runLoader, eventPass, applyShiftSet, applySyst, observeCfg,
    binIndexOf, initState, cfgCentralC3, cfgScaleUpC3, evC3a, evC3b, evC3c,
    kRecoMuonEnergy, cutTrue, undoRestorer, setField, getField, restorerAdd,
    List.foldl, List.replicate, List.set]

/-- Amended claim C3: with the three weight-1 events of derived values
{0.5, 9.5, 5.0}, the 2-bin uniform binning on [0,10] and the always-true
cut, the central value accumulates content [1.0, 2.0] with nothing
dropped; under EMuScale at sigma = +1 the values become 0.6 (bin 0),
11.4 (Overflow, dropped) and 6.0 (bin 1), giving content [1.0, 1.0] with
exactly one dropped event. -/
theorem concrete_scenario_amended :
    (runC3.1[0]?).map (fun st => (st.content, st.dropped)) = some ([1, 2], 0)
    ∧ (runC3.1[1]?).map (fun st => (st.content, st.dropped))
        = some ([1, 1], 1)
    ∧ binIndexOf [0, 5, 10] ((1 / 2) * (1 + 1 / 5)) = some 0
    ∧ binIndexOf [0, 5, 10] ((19 / 2) * (1 + 1 / 5)) = none
    ∧ binIndexOf [0, 5, 10] ((5 : ℚ) * (1 + 1 / 5)) = some 1 := by
  norm_num [runC3, runLoader, eventPass, applyShiftSet, applySyst, observeCfg,
    binIndexOf, initState, cfgCentralC3, cfgScaleUpC3, evC3a, evC3b, evC3c,
    kRecoMuonEnergy, cutTrue, undoRestorer, setField, getField, restorerAdd,
    List.foldl, List.replicate, List.set]

/-- Does this ISyst draw from the random generator?  EMuScale is
deterministic; EMuSmear and ThetaSmear call gRandom->Gaus. -/
def systIsDet : Syst → Bool
  | .eMuScale => true
  | .eMuSmear => false
  | .thetaSmear => false

/-- A ShiftSet is deterministic when none of its transforms draws
randomness. -/
def detShiftSet (ss : ShiftSet) : Bool := ss.all (fun p => systIsDet p.1)

/-- Record produced by a deterministic ShiftSet; the stream and cursor
arguments are immaterial, so they are fixed at zero. -/
def detApply (cfg : SpectrumCfg) (sr : SRProxy) : SRProxy :=
  (applyShiftSet cfg.shift (fun _ => 0) sr [] 0).1

lemma applyShiftSet_det (ss : ShiftSet) (h : detShiftSet ss = true) :
    ∀ (stream stream2 : ℕ → ℚ) (sr : SRProxy) (rest : Restorer)
      (pos pos2 : ℕ),
      (applyShiftSet ss stream sr rest pos).1
          = (applyShiftSet ss stream2 sr rest pos2).1
      ∧ (applyShiftSet ss stream sr rest pos).2.2 = pos := by
  induction ss with
  | nil => intro stream stream2 sr rest pos pos2; exact ⟨rfl, rfl⟩
  | cons hd tl ih =>
      intro stream stream2 sr rest pos pos2
      obtain ⟨s, sigma⟩ := hd
      simp only [detShiftSet, List.all_cons, Bool.and_eq_true] at h
      cases s with
      | eMuScale =>
          simp only [applyShiftSet, applySyst]
          exact ih h.2 stream stream2 _ _ pos pos2
      | eMuSmear => simp [systIsDet] at h
      | thetaSmear => simp [systIsDet] at h

lemma eventPass_get_det :
    ∀ (cfgs : List SpectrumCfg) (sts : List SpecState) (stream : ℕ → ℚ)
      (sr : SRProxy) (pos : ℕ) (i : ℕ) (cfg : SpectrumCfg),
      cfgs[i]? = some cfg → detShiftSet cfg.shift = true →
      (eventPass stream cfgs sts sr pos).1[i]?
        = (sts[i]?).map (fun st => observeCfg cfg st (detApply cfg sr)) := by
  intro cfgs
  induction cfgs with
  | nil => intro sts stream sr pos i cfg hcfg; simp at hcfg
  | cons c cfgs ih =>
      intro sts stream sr pos i cfg hcfg hdet
      cases sts with
      | nil => simp [eventPass]
      | cons st sts =>
          cases i with
          | zero =>
              simp only [List.getElem?_cons_zero, Option.some_inj] at hcfg
              subst hcfg
              simp only [eventPass, List.getElem?_cons_zero, Option.map_some']
              congr 2
              exact (applyShiftSet_det c.shift hdet stream (fun _ => 0)
                sr [] pos 0).1
          | succ i =>
              simp only [List.getElem?_cons_succ] at hcfg
              simp only [eventPass, List.getElem?_cons_succ]
              rw [applyShiftSet_undo_general]
              exact ih sts stream sr _ i cfg hcfg hdet

lemma runLoader_foldl_det (cfgs : List SpectrumCfg) (stream : ℕ → ℚ)
    (i : ℕ) (cfg : SpectrumCfg) (hcfg : cfgs[i]? = some cfg)
    (hdet : detShiftSet cfg.shift = true) :
    ∀ (events : List SRProxy) (sts : List SpecState) (pos : ℕ)
      (st : SpecState), sts[i]? = some st →
      (events.foldl
        (fun acc ev =>
          let p := eventPass stream cfgs acc.1 ev acc.2
          (p.1, p.2.2)) (sts, pos)).1[i]?
        = some (events.foldl
            (fun st ev => observeCfg cfg st (detApply cfg ev)) st) := by
  intro events
  induction events with
  | nil => intro sts pos st hst; simpa using hst
  | cons ev evs ih =>
      intro sts pos st hst
      simp only [List.foldl_cons]
      refine ih _ _ (observeCfg cfg st (detApply cfg ev)) ?_
      rw [eventPass_get_det cfgs sts stream ev pos i cfg hcfg hdet, hst]
      rfl

/-- Amended claim C2: a Spectrum whose ShiftSet is deterministic (central
value, scale up, scale down) accumulates, in one combined Loader pass with
any other hypotheses registered and any random stream, exactly the
contents it accumulates in a fresh single-hypothesis pass over the same
events; for the stochastic smear hypotheses this fails in general (see the
counterexample), since the combined pass hands the shared generator's
draws to the hypotheses in a different order than single passes do. -/
theorem loader_single_run_equivalence_det (cfgs : List SpectrumCfg)
    (events : List SRProxy) (stream stream2 : ℕ → ℚ) (i : ℕ)
    (cfg : SpectrumCfg) (hcfg : cfgs[i]? = some cfg)
    (hdet : detShiftSet cfg.shift = true) :
    (runLoader cfgs events stream).1[i]?
      = (runLoader [cfg] events stream2).1[0]? := by
  unfold runLoader
  rw [runLoader_foldl_det cfgs stream i cfg hcfg hdet events
      (cfgs.map initState) 0 (initState cfg)
      (by rw [List.getElem?_map, hcfg]; rfl),
    runLoader_foldl_det [cfg] stream2 0 cfg rfl hdet events
      ([cfg].map initState) 0 (initState cfg) rfl]

/-- Witness for the amended claim C2: the central-value Spectrum gets the
same contents from a combined two-hypothesis pass as from its own
single-hypothesis pass under a different stream. -/
theorem loader_single_run_equivalence_det_witness :
    (runLoader [cfgCentralC3, cfgScaleUpC3] [evC3a] (fun _ => 0)).1[0]?
      = (runLoader [cfgCentralC3] [evC3a] (fun _ => 1)).1[0]? :=
  loader_single_run_equivalence_det [cfgCentralC3, cfgScaleUpC3] [evC3a]
    (fun _ => 0) (fun _ => 1) 0 cfgCentralC3 rfl rfl

/-- First event of the C2 counterexample: muon energy 1 GeV, passes the
CC0pi cut. -/
def evC2a : SRProxy := ⟨1, 0, 13, 1, 0, 0, 0⟩

/-- Second event of the C2 counterexample: muon energy 4 GeV, passes the
CC0pi cut. -/
def evC2b : SRProxy := ⟨4, 0, 13, 1, 0, 0, 0⟩

/-- Seeded stream of Gaussian draws for the C2 counterexample: the second
draw is 1, all others 0. -/
def streamC2 : ℕ → ℚ := fun n => if n = 1 then 1 else 0

/-- The five hypotheses of Systematics3 over a 2-bin [0,10] muon-energy
axis with the CC0pi cut: central value, EMuScale up, EMuScale down,
EMuSmear, ThetaSmear. -/
def cfgsC2 : List SpectrumCfg :=
  [⟨[0, 5, 10], kRecoMuonEnergy, kHasCC0PiFinalState, []⟩,
    ⟨[0, 5, 10], kRecoMuonEnergy, kHasCC0PiFinalState, [(Syst.eMuScale, 1)]⟩,
    ⟨[0, 5, 10], kRecoMuonEnergy, kHasCC0PiFinalState, [(Syst.eMuScale, -1)]⟩,
    ⟨[0, 5, 10], kRecoMuonEnergy, kHasCC0PiFinalState, [(Syst.eMuSmear, 1)]⟩,
    ⟨[0, 5, 10], kRecoMuonEnergy, kHasCC0PiFinalState, [(Syst.thetaSmear, 1)]⟩]

/-- The EMuSmear hypothesis alone (entry 3 of cfgsC2). -/
def cfgSmearC2 : SpectrumCfg :=
  ⟨[0, 5, 10], kRecoMuonEnergy, kHasCC0PiFinalState, [(Syst.eMuSmear, 1)]⟩

/-- Counterexample for claim C2: with the five Systematics3 hypotheses in
one pass over two events and the identically seeded stream, the EMuSmear
Spectrum accumulates content [2, 0], while the fresh single-hypothesis
pass accumulates [1, 1] — the combined pass hands EMuSmear the draws at
cursors 0 and 2, the single pass those at 0 and 1, so the second event is
smeared differently and changes bin. -/
theorem loader_combined_smear_differs_from_single :
    ((runLoader cfgsC2 [evC2a, evC2b] streamC2).1[3]?).map SpecState.content
      ≠ ((runLoader [cfgSmearC2] [evC2a, evC2b] streamC2).1[0]?).map
          SpecState.content := by
  norm_num [runLoader, eventPass, applyShiftSet, applySyst, observeCfg,
    binIndexOf, initState, cfgsC2, cfgSmearC2, evC2a, evC2b, streamC2,
    kRecoMuonEnergy, kHasCC0PiFinalState, undoRestorer, setField, getField,
    restorerAdd, List.foldl, List.replicate, List.set]

/-- Event record for the C6 counterexample: muon energy 1 GeV. -/
def srC6 : SRProxy := ⟨1, 0, 13, 1, 0, 0, 0⟩

/-- Seeded stream for the C6 counterexample: draw 0 at cursor 0, 1 at
every later cursor. -/
def streamC6 : ℕ → ℚ := fun n => if n = 0 then 0 else 1

/-- Counterexample for claim C6: EMuSmear's Shift reads gRandom, the
implicit global generator, modelled as the shared draw sequence plus the
shared cursor.  With one and the same seeded sequence, the smeared muon
energy of the same record at the same sigma differs when the global
cursor differs (i.e. when other code consumed a draw first): the value is
not a function of an explicitly-provided per-transform-run stream alone,
which is what the claim asserts. -/
theorem smear_value_depends_on_global_cursor :
    (applySyst Syst.eMuSmear 1 streamC6 srC6 [] 0).1.Elep_reco
      ≠ (applySyst Syst.eMuSmear 1 streamC6 srC6 [] 1).1.Elep_reco := by
  norm_num [applySyst, streamC6, srC6]

/-- Amended claim C6: the stochastic transforms draw from the single
shared global generator (gRandom), not from a per-run stream handle;
determinism holds only in the weaker sense that a Shift call is a pure
function of the record, sigma, and the generator's seeded sequence and
cursor: two runs with identical seeds agree wherever the generator cursor
has advanced identically. -/
theorem applySyst_reproducible_given_cursor (s : Syst) (sigma : ℚ)
    (stream stream2 : ℕ → ℚ) (sr : SRProxy) (rest : Restorer) (pos : ℕ)
    (h : stream pos = stream2 pos) :
    applySyst s sigma stream sr rest pos
      = applySyst s sigma stream2 sr rest pos := by
  cases s <;> simp only [applySyst, h]

/-- Witness for the amended claim C6 at the EMuSmear transform, cursor 0,
and two streams agreeing there. -/
theorem applySyst_reproducible_given_cursor_witness :
    applySyst Syst.eMuSmear 1 streamC6 srC6 [] 0
      = applySyst Syst.eMuSmear 1 (fun _ => 0) srC6 [] 0 :=
  applySyst_reproducible_given_cursor Syst.eMuSmear 1 streamC6 (fun _ => 0)
    srC6 [] 0 (by norm_num [streamC6])

/-- Modelled from the spec: per-bin TH1D::Add with coefficient (ROOT, not
under src/) — frac->Add(cv, -1) adds k times the second histogram bin by
bin. -/
def histAdd (h1 h2 : List ℚ) (k : ℚ) : List ℚ :=
  List.zipWith (fun a b => a + k * b) h1 h2

/-- Modelled from the spec: per-bin division of the output contract —
fractional(shifted, central) is undefined where the central bin is zero
and must propagate as NaN, not a crash, per bin (ROOT's TH1D::Divide is
not under src/). -/
def histDivide (h1 h2 : List ℚ) : List FP :=
  List.zipWith (fun a b => if b = 0 then FP.nan else FP.num (a / b)) h1 h2

/-- MakeFractionalPlot from Systematics3Solution.C: clone the shifted
histogram, Add the central value with coefficient -1, Divide by the
central value; the inputs are left untouched (the arithmetic happens on
the clone). -/
def MakeFractionalPlot (shifted cv : List ℚ) : List FP :=
  histDivide (histAdd shifted cv (-1)) cv

lemma zipWith_getElem? {α β γ : Type} (f : α → β → γ) :
    ∀ (l1 : List α) (l2 : List β) (i : ℕ) (a : α) (b : β),
      l1[i]? = some a → l2[i]? = some b →
      (List.zipWith f l1 l2)[i]? = some (f a b) := by
  intro l1
  induction l1 with
  | nil => intro l2 i a b h1 _; simp at h1
  | cons x l1 ih =>
      intro l2 i a b h1 h2
      cases l2 with
      | nil => simp at h2
      | cons y l2 =>
          cases i with
          | zero =>
              simp only [List.getElem?_cons_zero, Option.some_inj] at h1 h2
              subst h1
              subst h2
              simp [List.zipWith_cons_cons]
          | succ i =>
              simp only [List.getElem?_cons_succ] at h1 h2
              simp only [List.zipWith_cons_cons, List.getElem?_cons_succ]
              exact ih l2 i a b h1 h2

lemma makeFractionalPlot_getElem? (shifted cv : List ℚ) (i : ℕ) (s c : ℚ)
    (hs : shifted[i]? = some s) (hc : cv[i]? = some c) :
    (MakeFractionalPlot shifted cv)[i]?
      = some (if c = 0 then FP.nan else FP.num ((s + (-1) * c) / c)) := by
  unfold MakeFractionalPlot histDivide
  exact zipWith_getElem? _ (histAdd shifted cv (-1)) cv i (s + (-1) * c) c
    (zipWith_getElem? _ shifted cv i s c hs hc) hc

/-- Claim C4: for any pair of histograms with matching binning, the
fractional-comparison operation built from clone/Add/Divide produces in
every bin whose central content is nonzero the value
(shifted - central) / central; the embedding is pure, so the shifted and
central inputs are returned unchanged by construction. -/
theorem makeFractionalPlot_per_bin (shifted cv : List ℚ) (i : ℕ) (s c : ℚ)
    (hs : shifted[i]? = some s) (hc : cv[i]? = some c) (hcz : c ≠ 0) :
    (MakeFractionalPlot shifted cv)[i]? = some (FP.num ((s - c) / c)) := by
  rw [makeFractionalPlot_getElem? shifted cv i s c hs hc, if_neg hcz]
  congr 2
  ring

/-- Witness for claim C4 at shifted = [3], central = [2]. -/
theorem makeFractionalPlot_per_bin_witness :
    (MakeFractionalPlot [3] [2])[0]? = some (FP.num ((3 - 2) / 2)) :=
  makeFractionalPlot_per_bin [3] [2] 0 3 2 rfl rfl (by norm_num)

/-- Claim C5: in every bin where the central histogram is zero the
fractional comparison yields NaN (neither a crash — the operation is
total — nor a substituted number), and every bin with nonzero central
content still gets the ordinary (shifted - central) / central value,
unaffected by the zero bin. -/
theorem makeFractionalPlot_zero_central_nan (shifted cv : List ℚ) :
    (∀ (i : ℕ) (s : ℚ), shifted[i]? = some s → cv[i]? = some 0 →
        (MakeFractionalPlot shifted cv)[i]? = some FP.nan)
    ∧ (∀ (j : ℕ) (t d : ℚ), shifted[j]? = some t → cv[j]? = some d →
        d ≠ 0 →
        (MakeFractionalPlot shifted cv)[j]? = some (FP.num ((t - d) / d))) := by
  constructor
  · intro i s hs hc
    rw [makeFractionalPlot_getElem? shifted cv i s 0 hs hc, if_pos rfl]
  · intro j t d ht hd hdz
    rw [makeFractionalPlot_getElem? shifted cv j t d ht hd, if_neg hdz]
    congr 2
    ring

/-- Witness for claim C5 at shifted = [1, 2], central = [0, 2]: the zero
central bin yields NaN and the other bin is unaffected. -/
theorem makeFractionalPlot_zero_central_nan_witness :
    (MakeFractionalPlot [1, 2] [0, 2])[0]? = some FP.nan
    ∧ (MakeFractionalPlot [1, 2] [0, 2])[1]? = some (FP.num ((2 - 2) / 2)) :=
  ⟨(makeFractionalPlot_zero_central_nan [1, 2] [0, 2]).1 0 1 rfl rfl,
    (makeFractionalPlot_zero_central_nan [1, 2] [0, 2]).2 1 2 2 rfl rfl
      (by norm_num)⟩

/-- Counterexample for claim C10: comparing the histogram [1, 0] against
itself does not give 0 in every bin — the bin where the histogram is zero
yields NaN under the output contract's division rule, not 0. -/
theorem fractional_self_zero_bin_nan :
    (MakeFractionalPlot [1, 0] [1, 0])[1]? = some FP.nan
    ∧ FP.nan ≠ FP.num 0 := by
  refine ⟨?_, by simp⟩
  rw [makeFractionalPlot_getElem? [1, 0] [1, 0] 1 0 0 rfl rfl, if_pos rfl]

/-- Amended claim C10: MakeFractionalPlot(h, h) yields 0 in every bin
where h is nonzero, since (h - h) / h = 0 there; bins where h is zero
yield NaN under the spec's per-bin division contract, not 0. -/
theorem fractional_self_zero_on_nonzero_bins (h : List ℚ) (i : ℕ) (x : ℚ)
    (hx : h[i]? = some x) (hxz : x ≠ 0) :
    (MakeFractionalPlot h h)[i]? = some (FP.num 0) := by
  rw [makeFractionalPlot_getElem? h h i x x hx hx, if_neg hxz]
  congr 2
  field_simp

/-- Witness for the amended claim C10 at h = [2]. -/
theorem fractional_self_zero_on_nonzero_bins_witness :
    (MakeFractionalPlot [2] [2])[0]? = some (FP.num 0) :=
  fractional_self_zero_on_nonzero_bins [2] 0 2 rfl (by norm_num)

/-- Has this floating-point value the NaN payload (isnan of the source)? -/
def fpIsNan : FP → Bool
  | .nan => true
  | .num _ => false

/-- IEEE comparison x < c: false whenever x is NaN. -/
def fpLtQ : FP → ℚ → Bool
  | .nan, _ => false
  | .num x, c => decide (x < c)

/-- IEEE cosine lifted to FP: cos of NaN is NaN; on ordinary values the
mathematical cosine is abstracted by the parameter cosF (its analytic
values never decide any claim under test). -/
def fpCos (cosF : ℚ → ℚ) : FP → FP
  | .nan => FP.nan
  | .num t => FP.num (cosF t)

/-- QEFormula from Systematics3Solution.C.  pmu = sqrt(Emu^2 - M_MU^2)
(relativity formula); with a negative argument the IEEE sqrt is NaN and
propagates through num/denom past the denom == 0 test, so that path is
the nan branch here; otherwise sqrt is abstracted by sqrtF and the
rational arithmetic proceeds, with the source's explicit
`if (denom == 0) return 0` guard. -/
def QEFormula (sqrtF : ℚ → ℚ) (Emu cosmu : ℚ) : FP :=
  if Emu ^ 2 - M_MU ^ 2 < 0 then FP.nan
  else
    let pmu := sqrtF (Emu ^ 2 - M_MU ^ 2)
    let numerQE :=
      M_P ^ 2 - (M_N - E_B) ^ 2 - M_MU ^ 2 + 2 * (M_N - E_B) * Emu
    let denomQE := 2 * (M_N - E_B - Emu + pmu * cosmu)
    if denomQE = 0 then FP.num 0 else FP.num (numerQE / denomQE)

/-- Var kRecoQEFormulaEnergy from Systematics3Solution.C, as a function of
the two record fields it reads (sr->Elep_reco and sr->theta_reco, either
possibly NaN): if (Emu < M_MU) return 0; cosmu = cos(theta_reco);
if (isnan(Emu) || isnan(cosmu)) return 0; return QEFormula(Emu, cosmu). -/
def kRecoQEFormulaEnergy (sqrtF cosF : ℚ → ℚ) (Elep thetaR : FP) : FP :=
  if fpLtQ Elep M_MU then FP.num 0
  else
    let cosmu := fpCos cosF thetaR
    if fpIsNan Elep || fpIsNan cosmu then FP.num 0
    else
      match Elep, cosmu with
      | .num e, .num c => QEFormula sqrtF e c
      | _, _ => FP.num 0

lemma sq_diff_nonneg_of_M_MU_le {e : ℚ} (h : M_MU ≤ e) :
    ¬ e ^ 2 - M_MU ^ 2 < 0 := by
  have h0 : (0 : ℚ) ≤ M_MU := by norm_num [M_MU]
  nlinarith

/-- Claim C8: kRecoQEFormulaEnergy is total and never NaN for any inputs
(so no square root of a negative number and no division by zero is ever
evaluated): energies below M_MU and NaN inputs return the sentinel 0
before QEFormula runs; once QEFormula runs its sqrt argument is
nonnegative; and QEFormula returns 0 whenever its denominator is exactly
zero.  The sentinel 0 is then excluded by the kRecoQEFormulaEnergy > 0
cut of the macros. -/
theorem recoQEFormulaEnergy_total_safe (sqrtF cosF : ℚ → ℚ)
    (Elep thetaR : FP) :
    fpIsNan (kRecoQEFormulaEnergy sqrtF cosF Elep thetaR) = false
    ∧ (fpLtQ Elep M_MU = true →
        kRecoQEFormulaEnergy sqrtF cosF Elep thetaR = FP.num 0)
    ∧ (fpIsNan Elep = true ∨ fpIsNan thetaR = true →
        kRecoQEFormulaEnergy sqrtF cosF Elep thetaR = FP.num 0)
    ∧ (∀ e : ℚ, fpLtQ (FP.num e) M_MU = false → ¬ e ^ 2 - M_MU ^ 2 < 0)
    ∧ (∀ e c : ℚ, ¬ e ^ 2 - M_MU ^ 2 < 0 →
        2 * (M_N - E_B - e + sqrtF (e ^ 2 - M_MU ^ 2) * c) = 0 →
        QEFormula sqrtF e c = FP.num 0) := by
  have harg : ∀ e : ℚ, fpLtQ (FP.num e) M_MU = false →
      ¬ e ^ 2 - M_MU ^ 2 < 0 := by
    intro e he
    simp only [fpLtQ, decide_eq_false_iff_not, not_lt] at he
    exact sq_diff_nonneg_of_M_MU_le he
  refine ⟨?_, ?_, ?_, harg, ?_⟩
  · by_cases hlt : fpLtQ Elep M_MU = true
    · simp [kRecoQEFormulaEnergy, hlt, fpIsNan]
    · rw [Bool.not_eq_true] at hlt
      cases Elep with
      | nan => simp [kRecoQEFormulaEnergy, hlt, fpIsNan]
      | num e =>
          cases thetaR with
          | nan => simp [kRecoQEFormulaEnergy, hlt, fpCos, fpIsNan]
          | num t =>
              simp only [kRecoQEFormulaEnergy, hlt, Bool.false_eq_true,
                if_false, fpCos, fpIsNan, Bool.or_self]
              rw [QEFormula, if_neg (harg e hlt)]
              by_cases hd :
                  2 * (M_N - E_B - e
                      + sqrtF (e ^ 2 - M_MU ^ 2) * cosF t) = 0 <;>
                simp [hd, fpIsNan]
  · intro hlt
    simp [kRecoQEFormulaEnergy, hlt]
  · intro hna
    by_cases hlt : fpLtQ Elep M_MU = true
    · simp [kRecoQEFormulaEnergy, hlt]
    · rw [Bool.not_eq_true] at hlt
      rcases hna with hna | hna
      · cases Elep with
        | nan => simp [kRecoQEFormulaEnergy, hlt, fpIsNan]
        | num e => simp [fpIsNan] at hna
      · cases thetaR with
        | nan => simp [kRecoQEFormulaEnergy, hlt, fpCos, fpIsNan]
        | num t => simp [fpIsNan] at hna
  · intro e c hnonneg hd
    rw [QEFormula, if_neg hnonneg]
    simp [hd]

/-- Witness for claim C8: an energy below the muon mass (0.05 GeV) with
any angle returns the sentinel 0. -/
theorem recoQEFormulaEnergy_total_safe_witness :
    kRecoQEFormulaEnergy id id (FP.num (1 / 20)) (FP.num 0) = FP.num 0 :=
  (recoQEFormulaEnergy_total_safe id id (FP.num (1 / 20)) (FP.num 0)).2.1
    (by norm_num [fpLtQ, M_MU])

end DUNESys
